import Mathlib

/-!
Shallow embedding of the hashing / verification core of amazon-qldb-kvs-nodejs.

The embedded source files are:
* `src/Verifier.ts` (compareHashValues, concatenate, joinHashesPairwise,
  calculateRootHashFromInternalHash, buildCandidateDigest, parseProof,
  verifyDocumentMetadata, flipRandomBit),
* `src/VerifyDocument.ts` (verifyDocumentMetadataWithUserData),
* `src/VerifyRevisionHash.ts` (generateIonHash, validateRevisionHash), and
* `src/BlockAddress.ts` (blockAddressToValueHolder).

Byte arrays (`Uint8Array` / `Buffer`) are modelled as `List Nat` whose entries
are below 256 (`isBytes`); JavaScript exceptions are modelled with `Except`.
-/

namespace QldbKvs

/-- Exceptions thrown by the embedded functions.  Each constructor corresponds
to one `throw` site in the source; the message text of the JavaScript `Error`
is recorded in the comments. -/
inductive QldbError
  /-- `Verifier.ts compareHashValues`: "Invalid hash." -/
  | invalidHash
  /-- `Verifier.ts flipRandomBit`: "Array cannot be empty!" -/
  | emptyArray
  /-- `VerifyDocument.ts`: "Revision hashes do not match. Received from user:
  ...; Received from Ledger: ..." -/
  | revisionHashMismatch (userHash ledgerHash : String)
  /-- `VerifyDocument.ts`: "Revision IDs do not match. ..." -/
  | revisionIdMismatch (userId ledgerId : String)
  /-- `VerifyDocument.ts`: "BlockAddresses do not match. ..." -/
  | blockAddressMismatch (userAddr ledgerAddr : String)
  /-- `VerifyDocument.ts`: "Document revision is not verified." -/
  | documentNotVerified
  /-- `VerifyDocument.ts`: "Expected altered document hash to not be verified
  against digest." -/
  | alteredDocumentVerified
  /-- `QLDBKVS.verifyLedgerMetadata` catch-all: "Could not verify the metadta". -/
  | couldNotVerify
deriving DecidableEq

/-- A `Uint8Array` value: every entry is a byte. -/
def isBytes (l : List Nat) : Prop := ∀ b ∈ l, b < 256

instance (l : List Nat) : Decidable (isBytes l) := by
  unfold isBytes; infer_instance

/-! ### SHA-256 (Node `crypto.createHash('sha256')`)

The source delegates hashing to Node's `crypto` module; the function below is
the standard FIPS 180-4 SHA-256 algorithm over byte lists, with 32-bit words
represented as `Nat` reduced modulo `2 ^ 32`. -/

def rotr32 (x n : Nat) : Nat := ((x >>> n) ||| (x <<< (32 - n))) % 4294967296

def shaCh (x y z : Nat) : Nat := (x &&& y) ^^^ ((x ^^^ 4294967295) &&& z)

def shaMaj (x y z : Nat) : Nat := (x &&& y) ^^^ (x &&& z) ^^^ (y &&& z)

def bigSigma0 (x : Nat) : Nat := rotr32 x 2 ^^^ rotr32 x 13 ^^^ rotr32 x 22

def bigSigma1 (x : Nat) : Nat := rotr32 x 6 ^^^ rotr32 x 11 ^^^ rotr32 x 25

def smallSigma0 (x : Nat) : Nat := rotr32 x 7 ^^^ rotr32 x 18 ^^^ (x >>> 3)

def smallSigma1 (x : Nat) : Nat := rotr32 x 17 ^^^ rotr32 x 19 ^^^ (x >>> 10)

def k256 : List Nat :=
  [1116352408, 1899447441, 3049323471, 3921009573, 961987163, 1508970993,
   2453635748, 2870763221, 3624381080, 310598401, 607225278, 1426881987,
   1925078388, 2162078206, 2614888103, 3248222580, 3835390401, 4022224774,
   264347078, 604807628, 770255983, 1249150122, 1555081692, 1996064986,
   2554220882, 2821834349, 2952996808, 3210313671, 3336571891, 3584528711,
   113926993, 338241895, 666307205, 773529912, 1294757372, 1396182291,
   1695183700, 1986661051, 2177026350, 2456956037, 2730485921, 2820302411,
   3259730800, 3345764771, 3516065817, 3600352804, 4094571909, 275423344,
   430227734, 506948616, 659060556, 883997877, 958139571, 1322822218,
   1537002063, 1747873779, 1955562222, 2024104815, 2227730452, 2361852424,
   2428436474, 2756734187, 3204031479, 3329325298]

def h256 : List Nat :=
  [1779033703, 3144134277, 1013904242, 2773480762,
   1359893119, 2600822924, 528734635, 1541459225]

/-- Group a byte list into big-endian 32-bit words. -/
def bytesToWords : List Nat → List Nat
  | b0 :: b1 :: b2 :: b3 :: rest =>
    (((b0 * 256 + b1) * 256 + b2) * 256 + b3) :: bytesToWords rest
  | _ => []

/-- Extend the 16-word message schedule by `n` further words. -/
def extendSchedule (w : List Nat) : Nat → List Nat
  | 0 => w
  | n + 1 =>
    let i := w.length
    let next := (smallSigma1 (w.getD (i - 2) 0) + w.getD (i - 7) 0 +
      smallSigma0 (w.getD (i - 15) 0) + w.getD (i - 16) 0) % 4294967296
    extendSchedule (w ++ [next]) n

/-- One round of the SHA-256 compression function on the 8-word state. -/
def compressStep (st : List Nat) (kw : Nat × Nat) : List Nat :=
  match st with
  | [a, b, c, d, e, f, g, h] =>
    let t1 := (h + bigSigma1 e + shaCh e f g + kw.1 + kw.2) % 4294967296
    let t2 := (bigSigma0 a + shaMaj a b c) % 4294967296
    [(t1 + t2) % 4294967296, a, b, c, (d + t1) % 4294967296, e, f, g]
  | other => other

def processBlock (hh : List Nat) (block : List Nat) : List Nat :=
  let w := extendSchedule (bytesToWords block) 48
  let st := (k256.zip w).foldl compressStep hh
  (hh.zip st).map (fun p => (p.1 + p.2) % 4294967296)

def processBlocks (hh : List Nat) (l : List Nat) : List Nat :=
  match l with
  | [] => hh
  | x :: xs => processBlocks (processBlock hh ((x :: xs).take 64)) ((x :: xs).drop 64)
termination_by l.length
decreasing_by simp [List.length_drop]; omega

/-- FIPS 180-4 padding: append `0x80`, zeros, and the 64-bit big-endian bit
length, to a multiple of 64 bytes. -/
def padMessage (msg : List Nat) : List Nat :=
  let bitLen := 8 * msg.length
  let padZeros := (119 - msg.length % 64) % 64
  msg ++ 128 :: List.replicate padZeros 0 ++
    [bitLen / 2 ^ 56 % 256, bitLen / 2 ^ 48 % 256, bitLen / 2 ^ 40 % 256,
     bitLen / 2 ^ 32 % 256, bitLen / 2 ^ 24 % 256, bitLen / 2 ^ 16 % 256,
     bitLen / 2 ^ 8 % 256, bitLen % 256]

def wordToBytes (w : Nat) : List Nat :=
  [w / 2 ^ 24 % 256, w / 2 ^ 16 % 256, w / 2 ^ 8 % 256, w % 256]

/-- SHA-256 digest of a byte list, as a 32-entry byte list. -/
def sha256 (msg : List Nat) : List Nat :=
  ((processBlocks h256 (padMessage msg)).map wordToBytes).flatten

/-! ### Base64 (ion-js `toBase64`, Node `Buffer.from(s, 'base64')`)

`toBase64` is RFC 4648 base64 with padding, as produced by ion-js.  The decoder
models Node's `Buffer.from(s, 'base64')` on well-formed base64 input. -/

def base64Alphabet : List Char :=
  ['A', 'B', 'C', 'D', 'E', 'F', 'G', 'H', 'I', 'J', 'K', 'L', 'M',
   'N', 'O', 'P', 'Q', 'R', 'S', 'T', 'U', 'V', 'W', 'X', 'Y', 'Z',
   'a', 'b', 'c', 'd', 'e', 'f', 'g', 'h', 'i', 'j', 'k', 'l', 'm',
   'n', 'o', 'p', 'q', 'r', 's', 't', 'u', 'v', 'w', 'x', 'y', 'z',
   '0', '1', '2', '3', '4', '5', '6', '7', '8', '9', '+', '/']

def b64Char (n : Nat) : Char := base64Alphabet.getD n 'A'

def b64Val (c : Char) : Nat := base64Alphabet.indexOf c

def toBase64Chars : List Nat → List Char
  | [] => []
  | [a] => [b64Char (a / 4), b64Char (a % 4 * 16), '=', '=']
  | [a, b] => [b64Char (a / 4), b64Char (a % 4 * 16 + b / 16), b64Char (b % 16 * 4), '=']
  | a :: b :: c :: rest =>
    b64Char (a / 4) :: b64Char (a % 4 * 16 + b / 16) ::
      b64Char (b % 16 * 4 + c / 64) :: b64Char (c % 64) :: toBase64Chars rest

/-- ion-js `toBase64`: base64 rendering of a byte array. -/
def toBase64 (bytes : List Nat) : String := String.mk (toBase64Chars bytes)

/-- Decode successive groups of four base64 characters; `=` padding ends the
last group early. -/
def b64DecodeChars : List Char → List Nat
  | c1 :: c2 :: c3 :: c4 :: rest =>
    if c3 = '=' then [b64Val c1 * 4 + b64Val c2 / 16]
    else if c4 = '=' then
      [b64Val c1 * 4 + b64Val c2 / 16, b64Val c2 % 16 * 16 + b64Val c3 / 4]
    else (b64Val c1 * 4 + b64Val c2 / 16) :: (b64Val c2 % 16 * 16 + b64Val c3 / 4) ::
      (b64Val c3 % 4 * 64 + b64Val c4) :: b64DecodeChars rest
  | _ => []

/-- Node `Buffer.from(s, 'base64')` on well-formed base64 input. -/
def fromBase64 (s : String) : List Nat := b64DecodeChars s.data

/-! ### `src/Verifier.ts` -/

/-- JavaScript reinterpretation of an unsigned byte as a signed 8-bit value:
`(b << 24 >> 24)`.  `Uint8Array` entries are reduced modulo 256 on store, which
the `% 256` reflects. -/
def signedByte (b : Nat) : Int :=
  if b % 256 < 128 then (b % 256 : Nat) else (b % 256 : Nat) - 256

/-- The scanning loop of `compareHashValues`: return the signed difference of
the first non-matching byte pair, scanning the two lists front to back
(`compareHashValues` applies it to the reversed hashes, since the source loop
runs from the last index down to 0). -/
def firstDiff : List Nat → List Nat → Int
  | a :: as, b :: bs =>
    let difference := signedByte a - signedByte b
    if difference ≠ 0 then difference else firstDiff as bs
  | _, _ => 0

/-- `Verifier.ts compareHashValues` (an identical private copy exists in
`VerifyRevisionHash.ts`): throws "Invalid hash." unless both operands are
exactly 32 bytes, then scans from the last byte to the first and returns the
signed difference of the first non-matching byte pair, or 0. -/
def compareHashValues (hash1 hash2 : List Nat) : Except QldbError Int :=
  if hash1.length ≠ 32 ∨ hash2.length ≠ 32 then .error .invalidHash
  else .ok (firstDiff hash1.reverse hash2.reverse)

/-- `Verifier.ts concatenate` restricted to the two-array case in which the
source uses it: copy both arrays into one result array in argument order. -/
def concatenate (h1 h2 : List Nat) : List Nat := h1 ++ h2

/-- `Verifier.ts joinHashesPairwise` (an identical private copy exists in
`VerifyRevisionHash.ts`): empty operands are returned unchanged; otherwise the
two operands are ordered by `compareHashValues`, concatenated, and the SHA-256
digest of the concatenation is returned. -/
def joinHashesPairwise (h1 h2 : List Nat) : Except QldbError (List Nat) :=
  if h1.length = 0 then .ok h2
  else if h2.length = 0 then .ok h1
  else
    match compareHashValues h1 h2 with
    | .error e => .error e
    | .ok d =>
      .ok (sha256 (if d < 0 then concatenate h1 h2 else concatenate h2 h1))

/-- JavaScript `Array.prototype.reduce(f, init)` for a callback that can throw:
the accumulator starts at `init` and the callback is applied left to right; a
thrown exception propagates out of the loop. -/
def arrayReduce (f : β → α → Except ε β) (init : β) : List α → Except ε β
  | [] => .ok init
  | x :: xs =>
    match f init x with
    | .error e => .error e
    | .ok acc => arrayReduce f acc xs

/-- `Verifier.ts calculateRootHashFromInternalHash`:
`internalHashes.reduce(joinHashesPairwise, leafHash)`. -/
def calculateRootHashFromInternalHash (internalHashes : List (List Nat))
    (leafHash : List Nat) : Except QldbError (List Nat) :=
  arrayReduce joinHashesPairwise leafHash internalHashes

/-- The Ion `ValueHolder` carrying a proof: a list of blob values.  The source
receives `{IonText: '[{{<hash>}},{{<hash>}}]'}` and decodes it with the
external ion-js DOM; the embedding models the value post-parse, keeping the
element order of the Ion list. -/
structure IonProof where
  elements : List (List Nat)
deriving DecidableEq

/-- `Verifier.ts parseProof`: map each element of the Ion list to its byte
array, in the order given. -/
def parseProof (valueHolder : IonProof) : List (List Nat) :=
  valueHolder.elements.map (fun proof => proof)

/-- `Verifier.ts buildCandidateDigest`. -/
def buildCandidateDigest (proof : IonProof) (leafHash : List Nat) :
    Except QldbError (List Nat) :=
  calculateRootHashFromInternalHash (parseProof proof) leafHash

/-- `Verifier.ts verifyDocumentMetadata`: rebuild the candidate digest from the
proof and the document hash and compare its base64 rendering with the supplied
base64 ledger digest string. -/
def verifyDocumentMetadata (documentHash : List Nat) (digest : String)
    (proof : IonProof) : Except QldbError Bool :=
  match buildCandidateDigest proof documentHash with
  | .error e => .error e
  | .ok candidateDigest => .ok (digest == toBase64 candidateDigest)

/-- `Verifier.ts flipRandomBit`: the source draws `bytePos` uniformly from the
index range and `bitShift` uniformly from `0–7` (`UPPER_BOUND = 8`) with
`Math.random`; the embedding takes the two draws as arguments.  The selected
byte is XORed with `1 << bitShift` (stored back modulo 256, as `Uint8Array`
assignment does). -/
def flipRandomBit (original : List Nat) (bytePos bitShift : Nat) :
    Except QldbError (List Nat) :=
  if original.length = 0 then .error .emptyArray
  else .ok (original.set bytePos ((original.getD bytePos 0 ^^^ 2 ^ bitShift) % 256))

/-! ### `src/BlockAddress.ts`, `src/Util.ts` and the fetched revision

The fetched revision arrives as Ion text and is decoded with the external
ion-js DOM (`dom.load`); the embedding models the decoded value: its block
address fields, its `hash` blob and its `metadata.id` string. -/

structure BlockAddr where
  strandId : String
  sequenceNo : Nat
deriving DecidableEq

/-- The fields of the fetched revision that `verifyDocumentMetadataWithUserData`
reads from the Ion DOM. -/
structure RevisionState where
  blockAddr : BlockAddr
  hash : List Nat
  metadataId : String
deriving DecidableEq

/-- An Ion `ValueHolder`: a structure holding an Ion text string. -/
structure ValueHolder where
  IonText : String
deriving DecidableEq

/-- `BlockAddress.ts blockAddressToValueHolder`: render the revision's block
address as `{strandId: "<strandId>", sequenceNo: <sequenceNo>}`. -/
def blockAddressToValueHolder (value : RevisionState) : ValueHolder :=
  ⟨"\x7bstrandId: \"" ++ value.blockAddr.strandId ++ "\", sequenceNo: " ++
    toString value.blockAddr.sequenceNo ++ "\x7d"⟩

/-- `Util.ts valueHolderToString`: wrap the Ion text as `{ IonText: ...}` and
pretty-print it with the external ion-js writer, modelled by the `prettyIon`
parameter. -/
def valueHolderToString (prettyIon : String → String) (valueHolder : ValueHolder) :
    String :=
  prettyIon ("\x7b IonText: " ++ valueHolder.IonText ++ "\x7d")

/-! ### `src/VerifyDocument.ts` -/

/-- The part of the QLDB `GetRevisionResponse` that the verifier reads: the
decoded revision and the proof. -/
structure GetRevisionResponse where
  Revision : RevisionState
  Proof : IonProof

/-- `GetDigestResponse` as stored inside the user's ledger metadata: the base64
digest string and the digest tip address. -/
structure LedgerDigestInfo where
  Digest : String
  DigestTipAddress : ValueHolder

/-- `GetMetadata.ts LedgerMetadata`: the caller-asserted verification bundle. -/
structure LedgerMetadata where
  RevisionHash : String
  DocumentId : String
  BlockAddress : ValueHolder
  LedgerDigest : LedgerDigestInfo

/-- `VerifyDocument.ts verifyDocumentMetadataWithUserData`: compare the
caller-asserted revision hash, document id and block address against the
fetched revision (in that order, each mismatch throwing), then verify the
asserted revision hash against the asserted ledger digest over the fetched
proof, throwing when not verified; finally flip a random bit in the hash and
require that the altered hash does not verify.  `prettyIon` models the external
ion-js pretty-printer used by `valueHolderToString`; `bytePos`/`bitShift` are
the random draws of `flipRandomBit`; the fetch of `revisionResponse` via
`getRevision` is an external collaborator call and is passed as an argument. -/
def verifyDocumentMetadataWithUserData (prettyIon : String → String)
    (bytePos bitShift : Nat) (revisionResponse : GetRevisionResponse)
    (userLedgerMetadata : LedgerMetadata) : Except QldbError Bool :=
  let userRevisionHash := userLedgerMetadata.RevisionHash
  let userRevisionId := userLedgerMetadata.DocumentId
  let userBlockAddress := userLedgerMetadata.BlockAddress
  let userDigestBase64 := userLedgerMetadata.LedgerDigest.Digest
  let revision := revisionResponse.Revision
  let blockAddress := blockAddressToValueHolder revision
  let revisionHash := revision.hash
  let revisionId := revision.metadataId
  let proof := revisionResponse.Proof
  if userRevisionHash ≠ toBase64 revisionHash then
    .error (.revisionHashMismatch userRevisionHash (toBase64 revisionHash))
  else if userRevisionId ≠ revisionId then
    .error (.revisionIdMismatch userRevisionId revisionId)
  else if valueHolderToString prettyIon userBlockAddress ≠
      valueHolderToString prettyIon blockAddress then
    .error (.blockAddressMismatch (valueHolderToString prettyIon userBlockAddress)
      (valueHolderToString prettyIon blockAddress))
  else
    let userRevisionHashBinary := fromBase64 userRevisionHash
    match verifyDocumentMetadata userRevisionHashBinary userDigestBase64 proof with
    | .error e => .error e
    | .ok verifiedDocument =>
      if !verifiedDocument then .error .documentNotVerified
      else
        match flipRandomBit userRevisionHashBinary bytePos bitShift with
        | .error e => .error e
        | .ok alteredDocumentHash =>
          match verifyDocumentMetadata alteredDocumentHash userDigestBase64 proof with
          | .error e => .error e
          | .ok verifiedAlteredDocument =>
            if verifiedAlteredDocument then .error .alteredDocumentVerified
            else .ok verifiedDocument

/-- `QLDBKVS.verifyLedgerMetadata` (`src/QLDBKVS.ts`): delegate to
`verifyDocumentMetadataWithUserData` and replace any thrown error by
`Error("Could not verify the metadta")`.  The delegate is imported from
`VerifyLedgerMetadata.ts`, whose source is not in the snapshot; the
`VerifyDocument.ts` implementation embedded above is used for it. -/
def verifyLedgerMetadata (prettyIon : String → String) (bytePos bitShift : Nat)
    (revisionResponse : GetRevisionResponse) (ledgerMetadata : LedgerMetadata) :
    Except QldbError Bool :=
  match verifyDocumentMetadataWithUserData prettyIon bytePos bitShift
    revisionResponse ledgerMetadata with
  | .ok b => .ok b
  | .error _ => .error .couldNotVerify

/-! ### `src/VerifyRevisionHash.ts`

`generateIonHash` re-serializes a plain JSON object field by field with an
ion-js text writer (`txTime` as a timestamp, `version` as an int, every other
field as a string) and then digests the document with the external ion-hash-js
library.  The scalar values appearing in those objects are modelled by
`JsonVal`; the Ion Hash layer is modelled below from the Amazon Ion Hash
specification implemented by ion-hash-js: every value hashes to
`sha256` of a tag-and-representation serialization, and a struct hashes to
`sha256` of the concatenation of its field serializations sorted bytewise, each
field serialization being a pure function of the field's name and value. -/

/-- A scalar value of the JSON objects fed to `generateIonHash`. -/
inductive JsonVal
  | jstr (s : String)
  | jnum (n : Int)
deriving DecidableEq

/-- The Ion scalar written for one field by the `switch` in `generateIonHash`:
`writer.writeTimestamp` for `txTime`, `writer.writeInt` for `version`,
`writer.writeString` otherwise. -/
inductive IonScalar
  | timestamp (v : JsonVal)
  | int (v : JsonVal)
  | string (v : JsonVal)
deriving DecidableEq

/-- Character-code serialization of a string (model of the writer's text
encoding). -/
def strBytes (s : String) : List Nat := s.data.map Char.toNat

/-- Little-endian base-256 digits of a natural number. -/
def natBytes : Nat → List Nat
  | 0 => []
  | n + 1 => ((n + 1) % 256) :: natBytes ((n + 1) / 256)
decreasing_by exact Nat.div_lt_self (Nat.succ_pos n) (by omega)

/-- Serialization of a `JsonVal` (model). -/
def jsonValSer : JsonVal → List Nat
  | .jstr s => 0 :: strBytes s
  | .jnum n => (if n < 0 then 1 else 2) :: natBytes n.natAbs

/-- Tag-and-representation serialization of an Ion scalar (model of the Ion
Hash `s(value)` function: a type-qualifier byte followed by the escaped
representation). -/
def scalarSer : IonScalar → List Nat
  | .timestamp v => 104 :: jsonValSer v
  | .int v => 40 :: jsonValSer v
  | .string v => 136 :: jsonValSer v

/-- Ion Hash escaping: the marker bytes 11, 12 and 14 are preceded by 12. -/
def escapeBytes (bs : List Nat) : List Nat :=
  bs.flatMap (fun b => if b = 11 ∨ b = 12 ∨ b = 14 then [12, b] else [b])

/-- Ion Hash serialization of one struct field: the escaped hash of the field
name symbol followed by the escaped hash of the field value (a pure function of
the name and the value). -/
def fieldSer (f : String × IonScalar) : List Nat :=
  escapeBytes (sha256 (120 :: escapeBytes (strBytes f.1))) ++
    escapeBytes (sha256 (scalarSer f.2))

/-- Ion Hash digest of a struct: the field serializations are sorted bytewise
and concatenated after the struct type qualifier `0xD0`, and the result is
digested. -/
def structDigest (fields : List (String × IonScalar)) : List Nat :=
  sha256 (208 :: (List.insertionSort (α := List Nat) (· ≤ ·)
    (fields.map fieldSer)).flatten)

/-- `VerifyRevisionHash.ts generateIonHash`: iterate over the JSON object's
fields in insertion order, writing `txTime` as a timestamp, `version` as an
int and every other field as a string, then digest the resulting Ion struct
with ion-hash-js. -/
def generateIonHash (jsonObject : List (String × JsonVal)) : List Nat :=
  structDigest (jsonObject.map (fun kv =>
    (kv.1, if kv.1 = "txTime" then IonScalar.timestamp kv.2
      else if kv.1 = "version" then IonScalar.int kv.2
      else IonScalar.string kv.2)))

/-- The revision document fed to `validateRevisionHash`: its `metadata` and
`data` JSON objects (in field insertion order) and its `hash` string (base64). -/
structure RevisionDoc where
  metadata : List (String × JsonVal)
  data : List (String × JsonVal)
  hash : String

/-- `VerifyRevisionHash.ts validateRevisionHash`: hash the `data` and
`metadata` objects, join the two digests pairwise, and compare the base64
rendering of the result with the revision's `hash` field. -/
def validateRevisionHash (revision : RevisionDoc) : Except QldbError Bool :=
  let metadataDigest := generateIonHash revision.metadata
  let dataDigest := generateIonHash revision.data
  match joinHashesPairwise dataDigest metadataDigest with
  | .error e => .error e
  | .ok candidateHash => .ok (toBase64 candidateHash == revision.hash)

/-! ## Lemmas about the byte comparator -/

theorem signedByte_inj {a b : Nat} (ha : a < 256) (hb : b < 256)
    (h : signedByte a = signedByte b) : a = b := by
  unfold signedByte at h
  rw [Nat.mod_eq_of_lt ha, Nat.mod_eq_of_lt hb] at h
  split_ifs at h <;> omega

theorem firstDiff_neg : ∀ a b : List Nat, firstDiff a b = - firstDiff b a
  | [], [] => by simp [firstDiff]
  | [], _ :: _ => by simp [firstDiff]
  | _ :: _, [] => by simp [firstDiff]
  | a :: as, b :: bs => by
    simp only [firstDiff]
    by_cases h : signedByte a - signedByte b = 0
    · have h2 : signedByte b - signedByte a = 0 := by omega
      simpa [h, h2] using firstDiff_neg as bs
    · have h2 : signedByte b - signedByte a ≠ 0 := by omega
      simp [h, h2]

theorem firstDiff_eq_zero : ∀ a b : List Nat, a.length = b.length →
    isBytes a → isBytes b → firstDiff a b = 0 → a = b
  | [], [], _, _, _, _ => rfl
  | [], _ :: _, hlen, _, _, _ => by simp at hlen
  | _ :: _, [], hlen, _, _, _ => by simp at hlen
  | a :: as, b :: bs, hlen, hba, hbb, h => by
    simp only [firstDiff] at h
    by_cases hd : signedByte a - signedByte b = 0
    · have hab : a = b :=
        signedByte_inj (hba a (by simp)) (hbb b (by simp)) (by omega)
      have htl : as = bs :=
        firstDiff_eq_zero as bs (by simpa using hlen)
          (fun x hx => hba x (by simp [hx])) (fun x hx => hbb x (by simp [hx]))
          (by simpa [hd] using h)
      rw [hab, htl]
    · simp [hd] at h

theorem firstDiff_self : ∀ a : List Nat, firstDiff a a = 0
  | [] => by simp [firstDiff]
  | a :: as => by simpa [firstDiff] using firstDiff_self as

theorem compareHashValues_ok {h1 h2 : List Nat} (hl1 : h1.length = 32)
    (hl2 : h2.length = 32) :
    compareHashValues h1 h2 = .ok (firstDiff h1.reverse h2.reverse) := by
  simp [compareHashValues, hl1, hl2]

theorem joinHashesPairwise_ok {h1 h2 : List Nat} (hl1 : h1.length = 32)
    (hl2 : h2.length = 32) :
    joinHashesPairwise h1 h2 =
      .ok (sha256 (if firstDiff h1.reverse h2.reverse < 0 then h1 ++ h2
        else h2 ++ h1)) := by
  unfold joinHashesPairwise
  rw [if_neg (by simp [hl1]), if_neg (by simp [hl2]),
    compareHashValues_ok hl1 hl2]
  rfl

/-- C2: the pairwise hash join of two 32-byte hashes is commutative: the
operands are ordered with the byte comparator before concatenation, so the
result does not depend on the argument order. -/
theorem joinHashesPairwise_comm (h1 h2 : List Nat) (hl1 : h1.length = 32)
    (hl2 : h2.length = 32) (hb1 : isBytes h1) (hb2 : isBytes h2) :
    joinHashesPairwise h1 h2 = joinHashesPairwise h2 h1 := by
  rw [joinHashesPairwise_ok hl1 hl2, joinHashesPairwise_ok hl2 hl1]
  have hneg : firstDiff h2.reverse h1.reverse = - firstDiff h1.reverse h2.reverse := by
    rw [firstDiff_neg h1.reverse h2.reverse]; ring
  rcases lt_trichotomy (firstDiff h1.reverse h2.reverse) 0 with hlt | heq | hgt
  · rw [if_pos hlt, if_neg (by omega)]
  · have hrev : h1.reverse = h2.reverse :=
      firstDiff_eq_zero h1.reverse h2.reverse (by simp [hl1, hl2])
        (fun x hx => hb1 x (List.mem_reverse.mp hx))
        (fun x hx => hb2 x (List.mem_reverse.mp hx)) heq
    have h12 : h1 = h2 := List.reverse_injective hrev
    rw [h12]
  · rw [if_neg (by omega), if_pos (by omega)]

/-- C2 witness: the commutativity theorem applied to the all-zero and all-one
32-byte hashes. -/
theorem joinHashesPairwise_comm_witness :
    joinHashesPairwise (List.replicate 32 0) (List.replicate 32 1) =
      joinHashesPairwise (List.replicate 32 1) (List.replicate 32 0) :=
  joinHashesPairwise_comm (List.replicate 32 0) (List.replicate 32 1)
    (by decide) (by decide) (by decide) (by decide)

/-- C3: the candidate-digest recomputation is the left fold of the pairwise
join over the proof sequence starting from the leaf hash: the empty proof
returns the leaf, each step joins the accumulator with the next proof hash and
feeds the result to the next step, and `buildCandidateDigest` consumes the
decoded proof hashes in the order given. -/
theorem calculateRootHash_foldl :
    (∀ (leafHash : List Nat) (internalHashes : List (List Nat)),
      calculateRootHashFromInternalHash internalHashes leafHash =
        List.foldlM joinHashesPairwise leafHash internalHashes) ∧
    (∀ leafHash : List Nat,
      calculateRootHashFromInternalHash [] leafHash = .ok leafHash) ∧
    (∀ (leafHash p : List Nat) (ps : List (List Nat)),
      calculateRootHashFromInternalHash (p :: ps) leafHash =
        (joinHashesPairwise leafHash p).bind
          (fun acc => calculateRootHashFromInternalHash ps acc)) ∧
    (∀ (leafHash : List Nat) (proof : IonProof),
      buildCandidateDigest proof leafHash =
        List.foldlM joinHashesPairwise leafHash (parseProof proof)) := by
  have hstep : ∀ (leafHash p : List Nat) (ps : List (List Nat)),
      calculateRootHashFromInternalHash (p :: ps) leafHash =
        (joinHashesPairwise leafHash p).bind
          (fun acc => calculateRootHashFromInternalHash ps acc) := by
    intro leafHash p ps
    unfold calculateRootHashFromInternalHash
    cases h : joinHashesPairwise leafHash p with
    | error e => simp [arrayReduce, h, Except.bind]
    | ok acc => simp [arrayReduce, h, Except.bind]
  have hfold : ∀ (internalHashes : List (List Nat)) (leafHash : List Nat),
      calculateRootHashFromInternalHash internalHashes leafHash =
        List.foldlM joinHashesPairwise leafHash internalHashes := by
    intro internalHashes
    induction internalHashes with
    | nil => intro leafHash; rfl
    | cons p ps ih =>
      intro leafHash
      rw [hstep, List.foldlM_cons]
      cases joinHashesPairwise leafHash p with
      | error e => rfl
      | ok acc => simpa [Except.bind] using ih acc
  exact ⟨fun l hs => hfold hs l, fun l => rfl, hstep,
    fun l proof => hfold (parseProof proof) l⟩

/-- C9: the zero-length hash is a two-sided identity of the pairwise join for
every valid 32-byte hash, the other operand being returned unchanged. -/
theorem joinHashesPairwise_empty_identity (h : List Nat) (hl : h.length = 32) :
    joinHashesPairwise [] h = .ok h ∧ joinHashesPairwise h [] = .ok h := by
  constructor
  · rfl
  · unfold joinHashesPairwise
    rw [if_neg (by simp [hl]), if_pos (by simp)]

/-- C9 witness: the identity theorem applied to a concrete 32-byte hash. -/
theorem joinHashesPairwise_empty_identity_witness :
    joinHashesPairwise [] (List.replicate 32 7) = .ok (List.replicate 32 7) ∧
      joinHashesPairwise (List.replicate 32 7) [] = .ok (List.replicate 32 7) :=
  joinHashesPairwise_empty_identity (List.replicate 32 7) (by decide)

/-- C6 counterexample: with an empty first operand and a 5-byte second operand,
the pairwise join does not fail with the invalid-length error — it returns the
ill-formed operand unchanged; and the comparator does fail on a zero-length
operand, although the claim exempts the empty value. -/
theorem joinHashesPairwise_empty_noCheck_cex :
    joinHashesPairwise [] [1, 2, 3, 4, 5] = .ok [1, 2, 3, 4, 5] ∧
      compareHashValues [] (List.replicate 32 0) = .error .invalidHash := by
  constructor <;> rfl

/-- C6 amended: the comparator fails with the invalid-length error exactly when
some operand is not 32 bytes (the empty value included); the join fails exactly
when both operands are non-empty and some operand is not 32 bytes; with an
empty operand the join returns the other operand unchanged whatever its
length. -/
theorem invalidHashLength_characterization :
    (∀ h1 h2 : List Nat,
      compareHashValues h1 h2 = .error .invalidHash ↔
        (h1.length ≠ 32 ∨ h2.length ≠ 32)) ∧
    (∀ h1 h2 : List Nat,
      (∃ e, joinHashesPairwise h1 h2 = .error e) ↔
        (h1 ≠ [] ∧ h2 ≠ [] ∧ (h1.length ≠ 32 ∨ h2.length ≠ 32))) ∧
    (∀ h : List Nat,
      joinHashesPairwise [] h = .ok h ∧ joinHashesPairwise h [] = .ok h) := by
  refine ⟨fun h1 h2 => ?_, fun h1 h2 => ?_, fun h => ?_⟩
  · unfold compareHashValues
    by_cases hc : h1.length ≠ 32 ∨ h2.length ≠ 32
    · rw [if_pos hc]
      exact ⟨fun _ => hc, fun _ => rfl⟩
    · rw [if_neg hc]
      exact ⟨fun h => (nomatch h), fun h => absurd h hc⟩
  · by_cases h1e : h1 = []
    · subst h1e
      simp [joinHashesPairwise]
    · by_cases h2e : h2 = []
      · subst h2e
        have hl1 : ¬h1.length = 0 := fun h0 => h1e (List.length_eq_zero.mp h0)
        unfold joinHashesPairwise
        rw [if_neg hl1, if_pos (by simp)]
        simp [h1e]
      · have hl1 : ¬h1.length = 0 := fun h0 => h1e (List.length_eq_zero.mp h0)
        have hl2 : ¬h2.length = 0 := fun h0 => h2e (List.length_eq_zero.mp h0)
        unfold joinHashesPairwise
        rw [if_neg hl1, if_neg hl2]
        by_cases hc : h1.length ≠ 32 ∨ h2.length ≠ 32
        · rw [show compareHashValues h1 h2 = .error .invalidHash from by
            unfold compareHashValues; rw [if_pos hc]]
          exact ⟨fun _ => ⟨h1e, h2e, hc⟩, fun _ => ⟨.invalidHash, rfl⟩⟩
        · push_neg at hc
          rw [compareHashValues_ok hc.1 hc.2]
          refine ⟨fun hex => ?_, fun hand => ?_⟩
          · obtain ⟨e, he⟩ := hex
            exact nomatch he
          · obtain ⟨-, -, hor⟩ := hand
            rcases hor with hbad | hbad
            · exact absurd hc.1 hbad
            · exact absurd hc.2 hbad
  · refine ⟨rfl, ?_⟩
    by_cases he : h = []
    · subst he; rfl
    · unfold joinHashesPairwise
      rw [if_neg (fun h0 => he (List.length_eq_zero.mp h0)), if_pos (by simp)]

/-! ## The metadata verification call -/

/-- C5: the fetched state is checked against the asserted state in the fixed
order revision hash, then document id, then block address; the first mismatch
raises the error naming that field, for every proof and asserted digest, so the
call never reaches digest recomputation. -/
theorem metadataChecks_ordered :
    (∀ (prettyIon : String → String) (bytePos bitShift : Nat)
       (rr : GetRevisionResponse) (um : LedgerMetadata),
       um.RevisionHash ≠ toBase64 rr.Revision.hash →
       verifyDocumentMetadataWithUserData prettyIon bytePos bitShift rr um =
         .error (.revisionHashMismatch um.RevisionHash
           (toBase64 rr.Revision.hash))) ∧
    (∀ (prettyIon : String → String) (bytePos bitShift : Nat)
       (rr : GetRevisionResponse) (um : LedgerMetadata),
       um.RevisionHash = toBase64 rr.Revision.hash →
       um.DocumentId ≠ rr.Revision.metadataId →
       verifyDocumentMetadataWithUserData prettyIon bytePos bitShift rr um =
         .error (.revisionIdMismatch um.DocumentId rr.Revision.metadataId)) ∧
    (∀ (prettyIon : String → String) (bytePos bitShift : Nat)
       (rr : GetRevisionResponse) (um : LedgerMetadata),
       um.RevisionHash = toBase64 rr.Revision.hash →
       um.DocumentId = rr.Revision.metadataId →
       valueHolderToString prettyIon um.BlockAddress ≠
         valueHolderToString prettyIon (blockAddressToValueHolder rr.Revision) →
       verifyDocumentMetadataWithUserData prettyIon bytePos bitShift rr um =
         .error (.blockAddressMismatch
           (valueHolderToString prettyIon um.BlockAddress)
           (valueHolderToString prettyIon (blockAddressToValueHolder rr.Revision)))) := by
  refine ⟨fun p bp bs rr um h1 => ?_, fun p bp bs rr um h1 h2 => ?_,
    fun p bp bs rr um h1 h2 h3 => ?_⟩
  · simp only [verifyDocumentMetadataWithUserData]
    rw [if_pos h1]
  · simp only [verifyDocumentMetadataWithUserData]
    rw [if_neg (not_not_intro h1), if_pos h2]
  · simp only [verifyDocumentMetadataWithUserData]
    rw [if_neg (not_not_intro h1), if_neg (not_not_intro h2), if_pos h3]

/-- C5 witness: the three ordered checks applied to concrete fixtures, in
particular a fixture with a mismatched document id (and matching revision
hash) raising the document-id mismatch error for an arbitrary proof and
digest. -/
theorem metadataChecks_ordered_witness :
    verifyDocumentMetadataWithUserData id 0 0
        ⟨⟨⟨"strandA", 3⟩, List.replicate 32 0, "docA"⟩, ⟨[[1]]⟩⟩
        ⟨"QQ==", "docA", ⟨"addr"⟩, ⟨"digest", ⟨"tip"⟩⟩⟩ =
      .error (.revisionHashMismatch "QQ=="
        (toBase64 (List.replicate 32 0))) ∧
    verifyDocumentMetadataWithUserData id 0 0
        ⟨⟨⟨"strandA", 3⟩, List.replicate 32 0, "docA"⟩, ⟨[[1]]⟩⟩
        ⟨toBase64 (List.replicate 32 0), "docB", ⟨"addr"⟩, ⟨"digest", ⟨"tip"⟩⟩⟩ =
      .error (.revisionIdMismatch "docB" "docA") ∧
    verifyDocumentMetadataWithUserData id 0 0
        ⟨⟨⟨"strandA", 3⟩, List.replicate 32 0, "docA"⟩, ⟨[[1]]⟩⟩
        ⟨toBase64 (List.replicate 32 0), "docA", ⟨"addr"⟩, ⟨"digest", ⟨"tip"⟩⟩⟩ =
      .error (.blockAddressMismatch (valueHolderToString id ⟨"addr"⟩)
        (valueHolderToString id (blockAddressToValueHolder
          ⟨⟨"strandA", 3⟩, List.replicate 32 0, "docA"⟩))) :=
  ⟨metadataChecks_ordered.1 id 0 0 _ _ (by decide),
   metadataChecks_ordered.2.1 id 0 0 _ _ rfl (by decide),
   metadataChecks_ordered.2.2 id 0 0 _ _ rfl rfl (by decide)⟩

/-- C1 counterexample: a fixture in which the fetched revision hash, document
id and block address all match the caller-asserted values but the recomputed
candidate digest differs from the asserted ledger digest.  The operation
raises the "Document revision is not verified." error (and the
`QLDBKVS.verifyLedgerMetadata` wrapper turns it into its catch-all error)
instead of returning the boolean `false`. -/
theorem digestMismatch_raises_cex :
    verifyDocumentMetadataWithUserData id 0 0
        ⟨⟨⟨"strandA", 3⟩, List.replicate 32 0, "docA"⟩, ⟨[]⟩⟩
        ⟨toBase64 (List.replicate 32 0), "docA",
          blockAddressToValueHolder ⟨⟨"strandA", 3⟩, List.replicate 32 0, "docA"⟩,
          ⟨"u28Bc1B9dAWEJbCsveOVwF3BsDf1YkGBvRpDuii4aDU=", ⟨"tip"⟩⟩⟩ =
      .error .documentNotVerified ∧
    verifyLedgerMetadata id 0 0
        ⟨⟨⟨"strandA", 3⟩, List.replicate 32 0, "docA"⟩, ⟨[]⟩⟩
        ⟨toBase64 (List.replicate 32 0), "docA",
          blockAddressToValueHolder ⟨⟨"strandA", 3⟩, List.replicate 32 0, "docA"⟩,
          ⟨"u28Bc1B9dAWEJbCsveOVwF3BsDf1YkGBvRpDuii4aDU=", ⟨"tip"⟩⟩⟩ =
      .error .couldNotVerify := by
  constructor <;> rfl

/-- C1 amended: when the three metadata checks pass and the recomputed
candidate digest does not match the asserted ledger digest, the operation
raises the "Document revision is not verified." error; a boolean is returned
only when every check, the digest comparison included, succeeds — in
particular `false` is never returned. -/
theorem digestMismatch_raises :
    (∀ (prettyIon : String → String) (bytePos bitShift : Nat)
       (rr : GetRevisionResponse) (um : LedgerMetadata),
       um.RevisionHash = toBase64 rr.Revision.hash →
       um.DocumentId = rr.Revision.metadataId →
       valueHolderToString prettyIon um.BlockAddress =
         valueHolderToString prettyIon (blockAddressToValueHolder rr.Revision) →
       verifyDocumentMetadata (fromBase64 um.RevisionHash)
         um.LedgerDigest.Digest rr.Proof = .ok false →
       verifyDocumentMetadataWithUserData prettyIon bytePos bitShift rr um =
         .error .documentNotVerified) ∧
    (∀ (prettyIon : String → String) (bytePos bitShift : Nat)
       (rr : GetRevisionResponse) (um : LedgerMetadata) (b : Bool),
       verifyDocumentMetadataWithUserData prettyIon bytePos bitShift rr um =
         .ok b → b = true) := by
  constructor
  · intro p bp bs rr um h1 h2 h3 hv
    simp only [verifyDocumentMetadataWithUserData]
    rw [if_neg (not_not_intro h1), if_neg (not_not_intro h2),
      if_neg (not_not_intro h3), hv]
    rfl
  · intro p bp bs rr um b h
    simp only [verifyDocumentMetadataWithUserData] at h
    split at h
    · exact (nomatch h)
    · split at h
      · exact (nomatch h)
      · split at h
        · exact (nomatch h)
        · split at h
          · exact (nomatch h)
          · split at h
            · exact (nomatch h)
            · split at h
              · exact (nomatch h)
              · split at h
                · exact (nomatch h)
                · split at h
                  · exact (nomatch h)
                  · injection h with hb
                    simp_all

/-- C1 amended witness: the digest-mismatch branch of the amended theorem
applied to a concrete fixture. -/
theorem digestMismatch_raises_witness :
    verifyDocumentMetadataWithUserData id 0 0
        ⟨⟨⟨"strandB", 9⟩, List.replicate 32 1, "docB"⟩, ⟨[]⟩⟩
        ⟨toBase64 (List.replicate 32 1), "docB",
          blockAddressToValueHolder ⟨⟨"strandB", 9⟩, List.replicate 32 1, "docB"⟩,
          ⟨"Tm90QVJlYWxEaWdlc3Q=", ⟨"tip"⟩⟩⟩ =
      .error .documentNotVerified :=
  digestMismatch_raises.1 id 0 0 _ _ rfl rfl rfl rfl

/-! ## Base64 round trip -/

theorem b64Val_b64Char : ∀ n, n < 64 → b64Val (b64Char n) = n := by decide

theorem b64Char_ne_pad : ∀ n, n < 64 → b64Char n ≠ '=' := by decide

theorem fromBase64_toBase64 : ∀ bs : List Nat, isBytes bs →
    fromBase64 (toBase64 bs) = bs := by
  have main : ∀ bs : List Nat, isBytes bs →
      b64DecodeChars (toBase64Chars bs) = bs := by
    intro bs
    induction bs using toBase64Chars.induct with
    | case1 => intro _; rfl
    | case2 a =>
      intro hb
      have ha : a < 256 := hb a (by simp)
      have e1 := b64Val_b64Char (a / 4) (by omega)
      have e2 := b64Val_b64Char (a % 4 * 16) (by omega)
      simp [toBase64Chars, b64DecodeChars, e1, e2]
      omega
    | case3 a b =>
      intro hb
      have ha : a < 256 := hb a (by simp)
      have hbb : b < 256 := hb b (by simp)
      have e1 := b64Val_b64Char (a / 4) (by omega)
      have e2 := b64Val_b64Char (a % 4 * 16 + b / 16) (by omega)
      have e3 := b64Val_b64Char (b % 16 * 4) (by omega)
      have hne := b64Char_ne_pad (b % 16 * 4) (by omega)
      simp [toBase64Chars, b64DecodeChars, hne, e1, e2, e3]
      omega
    | case4 a b c rest ih =>
      intro hb
      have ha : a < 256 := hb a (by simp)
      have hbb : b < 256 := hb b (by simp)
      have hc : c < 256 := hb c (by simp)
      have e1 := b64Val_b64Char (a / 4) (by omega)
      have e2 := b64Val_b64Char (a % 4 * 16 + b / 16) (by omega)
      have e3 := b64Val_b64Char (b % 16 * 4 + c / 64) (by omega)
      have e4 := b64Val_b64Char (c % 64) (by omega)
      have hne3 := b64Char_ne_pad (b % 16 * 4 + c / 64) (by omega)
      have hne4 := b64Char_ne_pad (c % 64) (by omega)
      have ihr := ih (fun x hx => hb x (by simp [hx]))
      simp [toBase64Chars, b64DecodeChars, hne3, hne4, e1, e2, e3, e4, ihr]
      omega
  intro bs hb
  exact main bs hb

theorem toBase64_inj {xs ys : List Nat} (hx : isBytes xs) (hy : isBytes ys)
    (h : toBase64 xs = toBase64 ys) : xs = ys := by
  have h2 := congrArg fromBase64 h
  rwa [fromBase64_toBase64 xs hx, fromBase64_toBase64 ys hy] at h2

/-- C10: recomputing the candidate digest over an empty proof returns the leaf
hash unchanged, and metadata verification with an empty proof succeeds exactly
when the asserted ledger digest equals the leaf hash. -/
theorem emptyProof_returns_leaf :
    (∀ leafHash : List Nat,
      calculateRootHashFromInternalHash [] leafHash = .ok leafHash) ∧
    (∀ leafHash digest : List Nat, isBytes leafHash → isBytes digest →
      (verifyDocumentMetadata leafHash (toBase64 digest) ⟨[]⟩ = .ok true ↔
        digest = leafHash)) := by
  refine ⟨fun l => rfl, fun leaf digest hbl hbd => ?_⟩
  show Except.ok (toBase64 digest == toBase64 leaf) = .ok true ↔ digest = leaf
  simp only [Except.ok.injEq, beq_iff_eq]
  exact ⟨fun h => toBase64_inj hbd hbl h, fun h => by rw [h]⟩

/-- C10 witness: empty-proof verification of a concrete leaf against its own
base64 rendering succeeds. -/
theorem emptyProof_returns_leaf_witness :
    verifyDocumentMetadata (List.replicate 32 5)
      (toBase64 (List.replicate 32 5)) ⟨[]⟩ = .ok true :=
  (emptyProof_returns_leaf.2 (List.replicate 32 5) (List.replicate 32 5)
    (by decide) (by decide)).mpr rfl

/-! ## Full characterization of the comparator (C4) -/

theorem getD_reverse {l : List Nat} {k : Nat} (hk : k < l.length) :
    l.reverse.getD k 0 = l.getD (l.length - 1 - k) 0 := by
  rw [List.getD_eq_getElem _ _ (by simpa using hk),
    List.getD_eq_getElem _ _ (by omega), List.getElem_reverse]

theorem firstDiff_spec : ∀ a b : List Nat, a.length = b.length →
    isBytes a → isBytes b → a ≠ b →
    ∃ k, k < a.length ∧ a.getD k 0 ≠ b.getD k 0 ∧
      (∀ j, j < k → a.getD j 0 = b.getD j 0) ∧
      firstDiff a b = signedByte (a.getD k 0) - signedByte (b.getD k 0)
  | [], [], _, _, _, hne => absurd rfl hne
  | [], _ :: _, hlen, _, _, _ => by simp at hlen
  | _ :: _, [], hlen, _, _, _ => by simp at hlen
  | a :: as, b :: bs, hlen, hba, hbb, hne => by
    by_cases hd : signedByte a - signedByte b = 0
    · have hab : a = b :=
        signedByte_inj (hba a (by simp)) (hbb b (by simp)) (by omega)
      have hne2 : as ≠ bs := fun h => hne (by rw [hab, h])
      obtain ⟨k, hk, hkd, hkp, hkv⟩ := firstDiff_spec as bs (by simpa using hlen)
        (fun x hx => hba x (by simp [hx])) (fun x hx => hbb x (by simp [hx])) hne2
      refine ⟨k + 1, by simpa using Nat.succ_lt_succ hk, by simpa using hkd,
        ?_, ?_⟩
      · intro j hj
        cases j with
        | zero => simpa using hab
        | succ j => simpa using hkp j (by omega)
      · simpa [firstDiff, hd] using hkv
    · refine ⟨0, by simp, ?_, fun j hj => absurd hj (by omega), ?_⟩
      · simp only [List.getD_cons_zero]
        exact fun h => hd (by rw [h]; ring)
      · simp [firstDiff, hd]

/-- C4 counterexample: on two 32-byte operands differing only in the last byte
(value 2 against 0) the comparator returns the raw signed difference 2, which
is not in the set -1, 0, 1. -/
theorem compare_not_sign_cex :
    compareHashValues (List.replicate 31 0 ++ [2]) (List.replicate 32 0) =
        .ok 2 ∧
      ¬((2 : Int) = -1 ∨ (2 : Int) = 0 ∨ (2 : Int) = 1) := by
  constructor
  · rfl
  · decide

/-- C4 amended: on two 32-byte operands the comparator returns an integer that
is 0 exactly when the operands are byte-identical and otherwise equals the full
signed-8-bit difference (not merely its sign) of the first non-matching byte
pair when scanning from the last byte to the first; operands whose length is
not 32 fail with the invalid-hash-length error. -/
theorem compare_signedDiff (h1 h2 : List Nat) (hb1 : isBytes h1)
    (hb2 : isBytes h2) (hl1 : h1.length = 32) (hl2 : h2.length = 32) :
    (∃ d : Int, compareHashValues h1 h2 = .ok d ∧ (d = 0 ↔ h1 = h2) ∧
      (h1 ≠ h2 → ∃ i, i < 32 ∧ h1.getD i 0 ≠ h2.getD i 0 ∧
        (∀ j, i < j → j < 32 → h1.getD j 0 = h2.getD j 0) ∧
        d = signedByte (h1.getD i 0) - signedByte (h2.getD i 0))) ∧
    (∀ g1 g2 : List Nat, g1.length ≠ 32 ∨ g2.length ≠ 32 →
      compareHashValues g1 g2 = .error .invalidHash) := by
  constructor
  · refine ⟨firstDiff h1.reverse h2.reverse, compareHashValues_ok hl1 hl2,
      ⟨?_, ?_⟩, ?_⟩
    · intro h0
      exact List.reverse_injective (firstDiff_eq_zero _ _ (by simp [hl1, hl2])
        (fun x hx => hb1 x (List.mem_reverse.mp hx))
        (fun x hx => hb2 x (List.mem_reverse.mp hx)) h0)
    · intro h
      subst h
      exact firstDiff_self _
    · intro hne
      have hner : h1.reverse ≠ h2.reverse :=
        fun h => hne (List.reverse_injective h)
      obtain ⟨k, hk, hkd, hkp, hkv⟩ := firstDiff_spec h1.reverse h2.reverse
        (by simp [hl1, hl2])
        (fun x hx => hb1 x (List.mem_reverse.mp hx))
        (fun x hx => hb2 x (List.mem_reverse.mp hx)) hner
      have hk32 : k < 32 := by
        simpa [hl1] using hk
      have t1 : h1.reverse.getD k 0 = h1.getD (31 - k) 0 := by
        rw [getD_reverse (by omega)]
        congr 1
        omega
      have t2 : h2.reverse.getD k 0 = h2.getD (31 - k) 0 := by
        rw [getD_reverse (by omega)]
        congr 1
        omega
      refine ⟨31 - k, by omega, ?_, ?_, ?_⟩
      · rw [← t1, ← t2]
        exact hkd
      · intro j hj1 hj2
        have u1 : h1.reverse.getD (31 - j) 0 = h1.getD j 0 := by
          rw [getD_reverse (by omega)]
          congr 1
          omega
        have u2 : h2.reverse.getD (31 - j) 0 = h2.getD j 0 := by
          rw [getD_reverse (by omega)]
          congr 1
          omega
        rw [← u1, ← u2]
        exact hkp (31 - j) (by omega)
      · rw [← t1, ← t2]
        exact hkv
  · intro g1 g2 hbad
    unfold compareHashValues
    rw [if_pos hbad]

/-- C4 amended witness: the characterization applied to a pair of identical
concrete 32-byte hashes. -/
theorem compare_signedDiff_witness :
    (∃ d : Int, compareHashValues (List.replicate 32 4) (List.replicate 32 4) =
        .ok d ∧
      (d = 0 ↔ List.replicate 32 (4 : Nat) = List.replicate 32 4) ∧
      (List.replicate 32 (4 : Nat) ≠ List.replicate 32 4 → ∃ i, i < 32 ∧
        (List.replicate 32 (4 : Nat)).getD i 0 ≠
          (List.replicate 32 (4 : Nat)).getD i 0 ∧
        (∀ j, i < j → j < 32 → (List.replicate 32 (4 : Nat)).getD j 0 =
          (List.replicate 32 (4 : Nat)).getD j 0) ∧
        d = signedByte ((List.replicate 32 (4 : Nat)).getD i 0) -
          signedByte ((List.replicate 32 (4 : Nat)).getD i 0))) ∧
    (∀ g1 g2 : List Nat, g1.length ≠ 32 ∨ g2.length ≠ 32 →
      compareHashValues g1 g2 = .error .invalidHash) :=
  compare_signedDiff (List.replicate 32 4) (List.replicate 32 4) (by decide)
    (by decide) (by decide) (by decide)

/-! ## Canonicalization (C7) -/

theorem insertionSortLe_perm_eq {l1 l2 : List (List Nat)} (h : l1.Perm l2) :
    List.insertionSort (α := List Nat) (· ≤ ·) l1 =
      List.insertionSort (α := List Nat) (· ≤ ·) l2 :=
  List.eq_of_perm_of_sorted
    ((List.perm_insertionSort _ l1).trans
      (h.trans (List.perm_insertionSort _ l2).symm))
    (List.sorted_insertionSort _ l1) (List.sorted_insertionSort _ l2)

/-- C7: the canonical revision hash is a deterministic pure function of the
structured value's abstract content: `generateIonHash` gives byte-identical
output on any two JSON objects holding the same fields in any order (the Ion
Hash struct digest sorts the field serializations), and `validateRevisionHash`
therefore computes the same leaf hash for revisions whose `metadata` and
`data` fields agree up to field order. -/
theorem canonicalization_order_independent :
    (∀ j1 j2 : List (String × JsonVal), j1.Perm j2 →
      generateIonHash j1 = generateIonHash j2) ∧
    (∀ r1 r2 : RevisionDoc, r1.metadata.Perm r2.metadata →
      r1.data.Perm r2.data → r1.hash = r2.hash →
      validateRevisionHash r1 = validateRevisionHash r2) := by
  have hgen : ∀ j1 j2 : List (String × JsonVal), j1.Perm j2 →
      generateIonHash j1 = generateIonHash j2 := by
    intro j1 j2 hperm
    unfold generateIonHash structDigest
    rw [insertionSortLe_perm_eq ((hperm.map _).map fieldSer)]
  refine ⟨hgen, fun r1 r2 hm hd hh => ?_⟩
  unfold validateRevisionHash
  rw [hgen _ _ hm, hgen _ _ hd, hh]

/-- C7 witness: a two-field object and its field-swapped form canonicalize to
the same digest, and two revisions differing only in field order validate
identically. -/
theorem canonicalization_order_independent_witness :
    generateIonHash [("id", .jstr "x"), ("version", .jnum 4)] =
        generateIonHash [("version", .jnum 4), ("id", .jstr "x")] ∧
      validateRevisionHash ⟨[("id", .jstr "x"), ("version", .jnum 4)],
          [("k", .jstr "v"), ("k2", .jstr "w")], "h"⟩ =
        validateRevisionHash ⟨[("version", .jnum 4), ("id", .jstr "x")],
          [("k2", .jstr "w"), ("k", .jstr "v")], "h"⟩ :=
  ⟨canonicalization_order_independent.1 _ _ (List.Perm.swap _ _ _),
   canonicalization_order_independent.2 _ _ (List.Perm.swap _ _ _)
     (List.Perm.swap _ _ _) rfl⟩

end QldbKvs
